import Mathlib

/-!
Refresh controller of iptvChannel (package `controller`)

A shallow embedding of `src/controller/controller.go`:

* `New` resolves the configured concurrency limit;
* `fetchChannels` fetches, parses and publishes the channel directory;
* `fetchEPGs` fans one goroutine out per channel behind a counting semaphore,
  fans the parsed entries back in over an unbuffered Go channel and publishes
  the aggregated slice;
* `Run` is one refresh cycle.

The goroutines of `fetchEPGs` are embedded as a small-step transition system
(`step`) over a pool state; the choices of the Go scheduler are an explicit input
(a list of `Action`s). Machine integers: `MaxConcurrent` is a Go `int`; the
only arithmetic on it is comparison with the constants 0 and 16, so it is an
unbounded `Int` here.
-/

namespace controller

/-- Raw bytes returned by the data source. -/
abbrev Bytes := List Nat

/-- A Go `error` value, as a code. -/
abbrev Err := Nat

/-- Modelled from the spec: the type `channel.Channel` is declared outside
`controller.go`; it is an identifier `ChannelID` plus descriptive fields that
the controller never inspects (kept as one field `Info`). -/
structure Channel where
  ChannelID : Nat
  Info : Nat
deriving DecidableEq

/-- Modelled from the spec: the type `epg.Epg` is declared outside
`controller.go`; it is an identifier of the owning channel plus program
fields that the controller never inspects (kept as one field `Program`). -/
structure Epg where
  ChannelID : Nat
  Program : Nat
deriving DecidableEq

/-- Modelled from the spec: the fields of `config.Config` that `New` reads.
`MaxConcurrent` is a Go `int`; `Cron` is the cadence expression. -/
structure Config where
  MaxConcurrent : Int
  Cron : String
deriving DecidableEq

/-- The fields of `Controller` that belong to the controller itself. The
collaborators `req` (data source), `server` (snapshot store) and `cron` are
embedded as `Req`, `Server` and the `addJob` argument of `New`. -/
structure Controller where
  conf : Config
  maxConcurrent : Int
deriving DecidableEq

/-- `New`, lines 17-35. `addJob` stands for `ctrl.cron.AddJob(c.Cron, ...)`:
it answers `some err` when the cadence expression is rejected. -/
def New (addJob : String → Option Err) (c : Config) : Except Err Controller :=
  let ctrl : Controller := { conf := c, maxConcurrent := c.MaxConcurrent }
  let ctrl : Controller :=
    if c.MaxConcurrent = 0 ∨ c.MaxConcurrent > 16 then { ctrl with maxConcurrent := 16 } else ctrl
  match addJob c.Cron with
  | some err => .error err
  | none => .ok ctrl

/-- The external collaborators of one refresh cycle: the data source
(`c.req`) and the two parsers. `GetChannelBytes n` is the answer to the
`n`-th directory request of the cycle (counting from 0); `GetEPGBytes i id`
is the answer to the guide request that goroutine `i` issues for channel
`id`. -/
structure Req where
  GetChannelBytes : Nat → Except Err Bytes
  BytesToChannels : Bytes → Except Err (List Channel)
  GetEPGBytes : Nat → Nat → Except Err Bytes
  GetEPGs : Bytes → Except Err (List Epg)

/-- The snapshot store `c.server`: two atomic pointers, `none` being the nil
pointer (the unset state) and `some xs` a pointer to the slice `xs`. -/
structure Server where
  Channels : Option (List Channel)
  EPGs : Option (List Epg)
deriving DecidableEq

/-- The state threaded through one cycle: the snapshot store, the number of
directory requests issued so far and the log of guide requests issued (the
channel identifiers passed to `GetEPGBytes`, in order of issue). -/
structure State where
  server : Server
  dirCalls : Nat
  guideCalls : List Nat
deriving DecidableEq

/-- The state in which a cycle starts on the store `srv`. -/
def State.start (srv : Server) : State :=
  { server := srv, dirCalls := 0, guideCalls := [] }

/-- `fetchChannels`, lines 71-88: the returned option is the Go `error`. -/
def fetchChannels (ds : Req) (s : State) : Option Err × State :=
  let s1 : State := { s with dirCalls := s.dirCalls + 1 }
  match ds.GetChannelBytes s.dirCalls with
  | .error err => (some err, s1)
  | .ok buf =>
    match ds.BytesToChannels buf with
    | .error err => (some err, s1)
    | .ok channels => (none, { s1 with server := { s1.server with Channels := some channels } })

/-- Program counter of one goroutine of the fan-out (lines 109-134). -/
inductive TaskPc where
  /-- created by `go func(i int)`, not yet past `sem <- true` -/
  | spawned
  /-- past `sem <- true`, about to call `GetEPGBytes` -/
  | entered
  /-- `GetEPGBytes` answered `resp`, about to call `epg.GetEPGs` -/
  | fetched (resp : Bytes)
  /-- in the loop `es <- epgs[i]`, with these entries still to send -/
  | emitting (rest : List Epg)
  /-- in the deferred function, about to run `<-sem` -/
  | leaving
  /-- past `<-sem`, about to run `wg.Done()` -/
  | released
  /-- finished -/
  | done
deriving DecidableEq

/-- One goroutine: the captured index `i`, the channel `channels[i]` it reads
and its program counter. -/
structure Task where
  i : Nat
  ch : Channel
  pc : TaskPc
deriving DecidableEq

/-- The state of the fan-out / fan-in of `fetchEPGs` (lines 102-147).
`todo` holds the indices the `for i := range channels` loop has not reached
yet; once it is empty the closer goroutine exists and the caller is in the
`for epg := range es` loop. `sem` is the number of values buffered in `sem`,
`wg` the WaitGroup counter, `closed` whether `es` has been closed. -/
structure Pool where
  todo : List (Nat × Channel)
  tasks : List Task
  sem : Nat
  wg : Nat
  closed : Bool
  esSlice : List Epg
  calls : List Nat
  panicked : Bool
deriving DecidableEq

/-- The pool at line 105, before the first iteration of the spawning loop. -/
def Pool.start (channels : List Channel) : Pool :=
  { todo := channels.enum, tasks := [], sem := 0, wg := 0, closed := false,
    esSlice := [], calls := [], panicked := false }

/-- A choice of the scheduler: let the spawning loop run one iteration, let
goroutine number `k` run its next statement, or let the closer goroutine run
`wg.Wait(); close(es)`. -/
inductive Action where
  | spawn
  | task (k : Nat)
  | close
deriving DecidableEq

/-- Goroutine `k` with a new program counter. -/
def Pool.setPc (p : Pool) (k : Nat) (t : Task) (pc : TaskPc) : Pool :=
  { p with tasks := p.tasks.set k { t with pc := pc } }

/-- One statement of goroutine `k`; `none` when the goroutine does not exist,
is blocked or has finished. `cap` is the capacity of `sem`. -/
def stepTask (cap : Nat) (ds : Req) (k : Nat) (p : Pool) : Option Pool :=
  match p.tasks[k]? with
  | none => none
  | some t =>
    match t.pc with
    | .spawned =>
      -- `sem <- true` blocks while the buffer is full
      if p.sem < cap then some { p.setPc k t .entered with sem := p.sem + 1 } else none
    | .entered =>
      let q : Pool := { p with calls := p.calls ++ [t.ch.ChannelID] }
      match ds.GetEPGBytes t.i t.ch.ChannelID with
      | .error _ => some (q.setPc k t .leaving)
      | .ok resp => some (q.setPc k t (.fetched resp))
    | .fetched resp =>
      -- `if len(epgs) > 0` guards a loop that an empty slice would not enter anyway
      match ds.GetEPGs resp with
      | .error _ => some (p.setPc k t .leaving)
      | .ok epgs => some (p.setPc k t (.emitting epgs))
    | .emitting [] => some (p.setPc k t .leaving)
    | .emitting (e :: rest) =>
      -- a send on the unbuffered `es` pairs with a receive of the
      -- `range es` loop of the caller, which appends the entry; a send on a closed channel panics
      if p.closed then some { p with panicked := true }
      else match p.todo with
        | [] => some { p.setPc k t (.emitting rest) with esSlice := p.esSlice ++ [e] }
        | _ :: _ => none
    | .leaving =>
      -- `<-sem` blocks while the buffer is empty
      if 0 < p.sem then some { p.setPc k t .released with sem := p.sem - 1 } else none
    | .released =>
      -- `wg.Done()` panics on a negative counter
      if 0 < p.wg then some { p.setPc k t .done with wg := p.wg - 1 }
      else some { p with panicked := true }
    | .done => none

/-- One scheduler choice applied to the pool; `none` when the chosen
goroutine cannot run. -/
def step (cap : Nat) (ds : Req) (a : Action) (p : Pool) : Option Pool :=
  if p.panicked then none
  else match a with
    | .spawn =>
      match p.todo with
      | [] => none
      | (i, ch) :: rest =>
        some { p with todo := rest, tasks := p.tasks ++ [{ i := i, ch := ch, pc := .spawned }],
                      wg := p.wg + 1 }
    | .task k => stepTask cap ds k p
    | .close =>
      match p.todo with
      | [] => if p.wg = 0 ∧ p.closed = false then some { p with closed := true } else none
      | _ :: _ => none

/-- Entries that parsing `resp` yields (none on a parse failure). -/
def parsed (ds : Req) (resp : Bytes) : List Epg :=
  match ds.GetEPGs resp with
  | .error _ => []
  | .ok epgs => epgs

/-- Entries that the goroutine for index `i` and channel `ch` sends in total:
those of its parse when both its fetch and its parse succeed, none otherwise. -/
def entries (ds : Req) (ic : Nat × Channel) : List Epg :=
  match ds.GetEPGBytes ic.1 ic.2.ChannelID with
  | .error _ => []
  | .ok resp => parsed ds resp

/-- Entries a goroutine has still to send. -/
def pend (ds : Req) (t : Task) : List Epg :=
  match t.pc with
  | .spawned => entries ds (t.i, t.ch)
  | .entered => entries ds (t.i, t.ch)
  | .fetched resp => parsed ds resp
  | .emitting rest => rest
  | _ => []

/-- Statements a goroutine has still to run, its sends apart. -/
def stage : TaskPc → Nat
  | .spawned => 6
  | .entered => 5
  | .fetched _ => 4
  | .emitting _ => 3
  | .leaving => 2
  | .released => 1
  | .done => 0

/-- Whether the goroutine is between `sem <- true` and `<-sem`. -/
def holding : TaskPc → Bool
  | .entered => true
  | .fetched _ => true
  | .emitting _ => true
  | .leaving => true
  | _ => false

/-- Number of goroutines inside the semaphore. -/
def Pool.running (p : Pool) : Nat :=
  p.tasks.countP (fun t => holding t.pc)

/-- Number of goroutines that have not run `wg.Done()` yet. -/
def Pool.live (p : Pool) : Nat :=
  p.tasks.countP (fun t => decide (t.pc ≠ .done))

/-- An upper bound on the number of scheduler choices the pool can still take. -/
def Pool.fuel (ds : Req) (p : Pool) : Nat :=
  (p.tasks.map (fun t => (pend ds t).length + stage t.pc)).sum
    + (p.todo.map (fun ic => (entries ds ic).length + 7)).sum
    + (if p.closed then 0 else 1)

/-- The schedule `sched` applied to the pool; a choice whose goroutine cannot
run is skipped. -/
def exec (cap : Nat) (ds : Req) : List Action → Pool → Pool
  | [], p => p
  | a :: rest, p =>
    match step cap ds a p with
    | none => exec cap ds rest p
    | some q => exec cap ds rest q

/-- The first goroutine that can run. -/
def pick (cap : Nat) (ds : Req) (p : Pool) : Option Action :=
  ([Action.spawn, Action.close] ++ (List.range p.tasks.length).map Action.task).find?
    (fun a => (step cap ds a p).isSome)

/-- The pool driven on by `pick` for at most `n` choices. -/
def finish (cap : Nat) (ds : Req) : Nat → Pool → Pool
  | 0, p => p
  | n + 1, p =>
    match pick cap ds p with
    | none => p
    | some a =>
      match step cap ds a p with
      | none => p
      | some q => finish cap ds n q

/-- The fan-out / fan-in of lines 105-147 under the scheduler choices
`sched`: the choices are applied in order and, when the list is exhausted,
the goroutines that can still run are run until none can. -/
def runPool (cap : Nat) (ds : Req) (sched : List Action) (channels : List Channel) : Pool :=
  let p := exec cap ds sched (Pool.start channels)
  finish cap ds (p.fuel ds) p

/-- How a call ends: it returns a value, it panics, or it never returns. -/
inductive Outcome (α : Type) where
  | ret (a : α)
  | panic
  | hang
deriving DecidableEq

/-- `fetchEPGs`, lines 90-153. The returned value is the Go `error`. The
capacity handed to `make` is the stored limit; `New` stores at most 16, so
capacities beyond what `make` can allocate are not considered. -/
def fetchEPGs (c : Controller) (ds : Req) (sched : List Action) (s : State) :
    Outcome (Option Err) × State :=
  let r : Option Err × State :=
    match s.server.Channels with
    | none => fetchChannels ds s
    | some _ => (none, s)
  match r with
  | (some err, s1) => (.ret (some err), s1)
  | (none, s1) =>
    match s1.server.Channels with
    | none => (.panic, s1) -- `*c.server.Channels.Load()` of a nil pointer
    | some channels =>
      if c.maxConcurrent < 0 then (.panic, s1) -- `make(chan bool, n)` with `n < 0`
      else
        let p := runPool c.maxConcurrent.toNat ds sched channels
        let s2 : State := { s1 with guideCalls := s1.guideCalls ++ p.calls }
        if p.panicked then (.panic, s2)
        else if p.closed then
          (.ret none, { s2 with server := { s2.server with EPGs := some p.esSlice } })
        else (.hang, s2)

/-- `Run`, lines 61-69, started on the store `srv`. -/
def Run (c : Controller) (ds : Req) (sched : List Action) (srv : Server) :
    Outcome Unit × State :=
  let (_, s1) := fetchChannels ds (State.start srv) -- the error is only logged
  match fetchEPGs c ds sched s1 with
  | (.ret _, s2) => (.ret (), s2)
  | (.panic, s2) => (.panic, s2)
  | (.hang, s2) => (.hang, s2)

/-- The interleavings of a family of sequences: `Interleaving ls out` when
`out` is obtained by repeatedly removing the head of one of the sequences. -/
inductive Interleaving {α : Type} : List (List α) → List α → Prop where
  | done (ls : List (List α)) : (∀ l ∈ ls, l = []) → Interleaving ls []
  | pick (l1 l2 : List (List α)) (x : α) (t out : List α) :
      Interleaving (l1 ++ t :: l2) out → Interleaving (l1 ++ (x :: t) :: l2) (x :: out)

/-- The sequences the goroutines, spawned or not, have still to send. -/
def Pool.rem (ds : Req) (p : Pool) : List (List Epg) :=
  p.tasks.map (pend ds) ++ p.todo.map (entries ds)

/-- The pool states the scheduler can bring about. -/
inductive Reach (cap : Nat) (ds : Req) (channels : List Channel) : Pool → Prop where
  | start : Reach cap ds channels (Pool.start channels)
  | next (a : Action) (p q : Pool) :
      Reach cap ds channels p → step cap ds a p = some q → Reach cap ds channels q

/-- The arithmetic clamp of `L` to the closed range from `lo` to `hi`. -/
def clamp (L lo hi : Int) : Int :=
  if L < lo then lo else if hi < L then hi else L

/-- The concurrency ceiling in the words of the specification: the configured
value clamped to the closed range from 1 to 16, a configured 0 or a value
above 16 both resolving to 16. -/
def concurrencyLimit (L : Int) : Int :=
  if L = 0 ∨ 16 < L then 16 else clamp L 1 16

/-- The transitions of `step`, with the list of goroutines split around the
one that moves. -/
inductive Move (cap : Nat) (ds : Req) : Pool → Pool → Prop where
  | spawn (p : Pool) (i : Nat) (ch : Channel) (rest : List (Nat × Channel)) :
      p.panicked = false → p.todo = (i, ch) :: rest →
      Move cap ds p { p with todo := rest,
                             tasks := p.tasks ++ [{ i := i, ch := ch, pc := .spawned }],
                             wg := p.wg + 1 }
  | close (p : Pool) :
      p.panicked = false → p.todo = [] → p.wg = 0 → p.closed = false →
      Move cap ds p { p with closed := true }
  | enter (p : Pool) (l1 l2 : List Task) (t : Task) :
      p.panicked = false → p.tasks = l1 ++ t :: l2 → t.pc = .spawned → p.sem < cap →
      Move cap ds p { p with tasks := l1 ++ { t with pc := .entered } :: l2, sem := p.sem + 1 }
  | quiet (p : Pool) (l1 l2 : List Task) (t : Task) (pc : TaskPc) (calls : List Nat) :
      p.panicked = false → p.tasks = l1 ++ t :: l2 →
      holding t.pc = true → holding pc = true → pc ≠ .done →
      pend ds { t with pc := pc } = pend ds t → stage pc < stage t.pc →
      Move cap ds p { p with tasks := l1 ++ { t with pc := pc } :: l2, calls := calls }
  | emit (p : Pool) (l1 l2 : List Task) (t : Task) (e : Epg) (rest : List Epg) :
      p.panicked = false → p.tasks = l1 ++ t :: l2 → t.pc = .emitting (e :: rest) →
      p.closed = false → p.todo = [] →
      Move cap ds p { p with tasks := l1 ++ { t with pc := .emitting rest } :: l2,
                             esSlice := p.esSlice ++ [e] }
  | release (p : Pool) (l1 l2 : List Task) (t : Task) :
      p.panicked = false → p.tasks = l1 ++ t :: l2 → t.pc = .leaving → 0 < p.sem →
      Move cap ds p { p with tasks := l1 ++ { t with pc := .released } :: l2, sem := p.sem - 1 }
  | finished (p : Pool) (l1 l2 : List Task) (t : Task) :
      p.panicked = false → p.tasks = l1 ++ t :: l2 → t.pc = .released → 0 < p.wg →
      Move cap ds p { p with tasks := l1 ++ { t with pc := .done } :: l2, wg := p.wg - 1 }
  | sendClosed (p : Pool) (l1 l2 : List Task) (t : Task) (e : Epg) (rest : List Epg) :
      p.panicked = false → p.tasks = l1 ++ t :: l2 → t.pc = .emitting (e :: rest) →
      p.closed = true →
      Move cap ds p { p with panicked := true }
  | negative (p : Pool) (l1 l2 : List Task) (t : Task) :
      p.panicked = false → p.tasks = l1 ++ t :: l2 → t.pc = .released → p.wg = 0 →
      Move cap ds p { p with panicked := true }

/-- The invariant of the pool: the semaphore buffer counts the goroutines
inside it and never exceeds its capacity, the WaitGroup counts the goroutines
that have not finished, `es` is closed only after all of them have, and
nothing has panicked. -/
structure Inv (cap : Nat) (p : Pool) : Prop where
  sem_eq : p.sem = p.running
  wg_eq : p.wg = p.live
  closed_imp : p.closed = true → p.todo = [] ∧ p.wg = 0
  no_panic : p.panicked = false
  sem_le : p.sem ≤ cap

/-- The channel list the `n`-th directory request of the cycle yields: the
composition of `GetChannelBytes` and `BytesToChannels` of lines 74-82,
`none` when either fails. -/
def directory (ds : Req) (n : Nat) : Option (List Channel) :=
  match ds.GetChannelBytes n with
  | .error _ => none
  | .ok buf =>
    match ds.BytesToChannels buf with
    | .error _ => none
    | .ok channels => some channels

/-- What the goroutine for index `i` and channel `ch` obtains (lines
119-128): the entries of its parse, `none` when its fetch or its parse fails. -/
def guide (ds : Req) (ic : Nat × Channel) : Option (List Epg) :=
  match ds.GetEPGBytes ic.1 ic.2.ChannelID with
  | .error _ => none
  | .ok resp =>
    match ds.GetEPGs resp with
    | .error _ => none
    | .ok epgs => some epgs

/-- Identical content up to order of two snapshots: both unset, or both set
to sequences that are permutations of each other. -/
def sameContent (a b : Option (List Epg)) : Prop :=
  match a, b with
  | none, none => True
  | some x, some y => x.Perm y
  | _, _ => False

/-- A sample upstream: the directory lists the channels 1, 2 and 3; the guide
of channel 2 cannot be fetched; every other guide holds two programs. -/
def demoReq : Req where
  GetChannelBytes := fun _ => .ok [1, 2, 3]
  BytesToChannels := fun buf => .ok (buf.map (fun id => { ChannelID := id, Info := 0 }))
  GetEPGBytes := fun _ id => if id = 2 then .error 404 else .ok [id]
  GetEPGs := fun resp =>
    .ok (resp.map (fun id => { ChannelID := id, Program := 0 })
          ++ resp.map (fun id => { ChannelID := id, Program := 1 }))

/-- The sample upstream with its directory out of reach. -/
def staleReq : Req :=
  { demoReq with GetChannelBytes := fun _ => .error 503 }

/-- A sample configuration with the concurrency limit `L`. -/
def demoConfig (L : Int) : Config :=
  { MaxConcurrent := L, Cron := "@every 1h" }

/-- A cron collaborator that accepts every cadence expression. -/
def acceptJob : String → Option Err :=
  fun _ => none

/-! ## The transition system -/

theorem set_split {α : Type} (l : List α) (k : Nat) (t : α) (h : l[k]? = some t) :
    ∃ l1 l2, l = l1 ++ t :: l2 ∧ l1.length = k ∧ ∀ u, l.set k u = l1 ++ u :: l2 := by
  induction l generalizing k with
  | nil => simp at h
  | cons a l ih =>
    cases k with
    | zero =>
      simp at h
      exact ⟨[], l, by simp [h], rfl, fun u => by simp⟩
    | succ k =>
      simp at h
      obtain ⟨l1, l2, h1, h2, h3⟩ := ih k h
      exact ⟨a :: l1, l2, by simp [h1], by simp [h2], fun u => by simp [h3]⟩

theorem stepTask_move (cap : Nat) (ds : Req) (k : Nat) (p q : Pool)
    (hp : p.panicked = false) (h : stepTask cap ds k p = some q) : Move cap ds p q := by
  unfold stepTask at h
  cases ht : p.tasks[k]? with
  | none => simp [ht] at h
  | some t =>
    obtain ⟨l1, l2, hl, _, hset⟩ := set_split p.tasks k t ht
    simp only [ht] at h
    cases hpc : t.pc with
    | spawned =>
      simp only [hpc] at h
      split at h
      · rename_i hlt
        simp only [Option.some.injEq, Pool.setPc, hset] at h
        subst h
        exact Move.enter p l1 l2 t hp hl hpc hlt
      · simp at h
    | entered =>
      simp only [hpc] at h
      cases hf : ds.GetEPGBytes t.i t.ch.ChannelID with
      | error e =>
        simp only [hf, Option.some.injEq, Pool.setPc, hset] at h
        subst h
        exact Move.quiet p l1 l2 t .leaving _ hp hl (by simp [hpc, holding]) (by simp [holding])
          (by simp) (by simp [pend, hpc, entries, hf]) (by simp [stage, hpc])
      | ok resp =>
        simp only [hf, Option.some.injEq, Pool.setPc, hset] at h
        subst h
        exact Move.quiet p l1 l2 t (.fetched resp) _ hp hl (by simp [hpc, holding])
          (by simp [holding]) (by simp) (by simp [pend, hpc, entries, hf]) (by simp [stage, hpc])
    | fetched resp =>
      simp only [hpc] at h
      cases hf : ds.GetEPGs resp with
      | error e =>
        simp only [hf, Option.some.injEq, Pool.setPc, hset] at h
        subst h
        exact Move.quiet p l1 l2 t .leaving p.calls hp hl (by simp [hpc, holding])
          (by simp [holding]) (by simp) (by simp [pend, hpc, parsed, hf]) (by simp [stage, hpc])
      | ok epgs =>
        simp only [hf, Option.some.injEq, Pool.setPc, hset] at h
        subst h
        exact Move.quiet p l1 l2 t (.emitting epgs) p.calls hp hl (by simp [hpc, holding])
          (by simp [holding]) (by simp) (by simp [pend, hpc, parsed, hf]) (by simp [stage, hpc])
    | emitting rest =>
      simp only [hpc] at h
      cases rest with
      | nil =>
        simp only [Option.some.injEq, Pool.setPc, hset] at h
        subst h
        exact Move.quiet p l1 l2 t .leaving p.calls hp hl (by simp [hpc, holding])
          (by simp [holding]) (by simp) (by simp [pend, hpc]) (by simp [stage, hpc])
      | cons e rest =>
        simp only at h
        split at h
        · rename_i hc
          simp only [Option.some.injEq] at h
          subst h
          exact Move.sendClosed p l1 l2 t e rest hp hl hpc hc
        · rename_i hc
          split at h
          · rename_i htodo
            simp only [Option.some.injEq, Pool.setPc, hset] at h
            subst h
            exact Move.emit p l1 l2 t e rest hp hl hpc (by simpa using hc) htodo
          · simp at h
    | leaving =>
      simp only [hpc] at h
      split at h
      · rename_i hlt
        simp only [Option.some.injEq, Pool.setPc, hset] at h
        subst h
        exact Move.release p l1 l2 t hp hl hpc hlt
      · simp at h
    | released =>
      simp only [hpc] at h
      split at h
      · rename_i hlt
        simp only [Option.some.injEq, Pool.setPc, hset] at h
        subst h
        exact Move.finished p l1 l2 t hp hl hpc hlt
      · rename_i hlt
        simp only [Option.some.injEq] at h
        subst h
        exact Move.negative p l1 l2 t hp hl hpc (by omega)
    | done => simp [hpc] at h

theorem step_move (cap : Nat) (ds : Req) (a : Action) (p q : Pool)
    (h : step cap ds a p = some q) : Move cap ds p q := by
  unfold step at h
  split at h
  · simp at h
  · rename_i hp
    have hp : p.panicked = false := by simpa using hp
    cases a with
    | spawn =>
      simp only at h
      split at h
      · simp at h
      · rename_i i ch rest htodo
        simp only [Option.some.injEq] at h
        subst h
        exact Move.spawn p i ch rest hp htodo
    | task k => exact stepTask_move cap ds k p q hp h
    | close =>
      simp only at h
      split at h
      · rename_i htodo
        split at h
        · rename_i hc
          simp only [Option.some.injEq] at h
          subst h
          exact Move.close p hp htodo hc.1 hc.2
        · simp at h
      · simp at h

theorem inv_start (cap : Nat) (channels : List Channel) : Inv cap (Pool.start channels) := by
  constructor <;> simp [Pool.start, Pool.running, Pool.live]

theorem holding_ne_done (pc : TaskPc) (h : holding pc = true) : pc ≠ .done := by
  intro h1
  subst h1
  simp [holding] at h

theorem inv_move (cap : Nat) (ds : Req) (p q : Pool) (hi : Inv cap p) (hm : Move cap ds p q) :
    Inv cap q := by
  obtain ⟨h1, h2, h3, h4, h5⟩ := hi
  unfold Pool.running at h1
  unfold Pool.live at h2
  cases hm with
  | spawn i ch rest hp htodo =>
    constructor
    · simp [Pool.running, List.countP_append, List.countP_cons, holding, h1]
    · simp [Pool.live, List.countP_append, List.countP_cons, h2]
    · intro hc
      have := (h3 hc).1
      simp [htodo] at this
    · exact hp
    · exact h5
  | close hp htodo hwg hc =>
    constructor
    · simpa [Pool.running] using h1
    · simpa [Pool.live] using h2
    · intro _
      exact ⟨htodo, hwg⟩
    · exact hp
    · exact h5
  | enter l1 l2 t hp hl hpc hlt =>
    rw [hl] at h1 h2
    simp only [List.countP_append, List.countP_cons, hpc, holding] at h1 h2
    constructor
    · simp [Pool.running, List.countP_append, List.countP_cons, holding]
      simp at h1
      omega
    · simp [Pool.live, List.countP_append, List.countP_cons]
      simp at h2
      omega
    · exact h3
    · exact hp
    · show p.sem + 1 ≤ cap
      omega
  | quiet l1 l2 t pc calls hp hl hh1 hh2 hne hpend hst =>
    rw [hl] at h1 h2
    have hne1 := holding_ne_done t.pc hh1
    simp only [List.countP_append, List.countP_cons, hh1] at h1 h2
    constructor
    · simp [Pool.running, List.countP_append, List.countP_cons, hh2]
      simp at h1
      omega
    · simp [Pool.live, List.countP_append, List.countP_cons, hne]
      simp [hne1] at h2
      omega
    · exact h3
    · exact hp
    · exact h5
  | emit l1 l2 t e rest hp hl hpc hc htodo =>
    rw [hl] at h1 h2
    simp only [List.countP_append, List.countP_cons, hpc, holding] at h1 h2
    constructor
    · simp [Pool.running, List.countP_append, List.countP_cons, holding]
      simp at h1
      omega
    · simp [Pool.live, List.countP_append, List.countP_cons]
      simp at h2
      omega
    · intro hc1
      simp [hc] at hc1
    · exact hp
    · exact h5
  | release l1 l2 t hp hl hpc hlt =>
    rw [hl] at h1 h2
    simp only [List.countP_append, List.countP_cons, hpc, holding] at h1 h2
    constructor
    · simp [Pool.running, List.countP_append, List.countP_cons, holding]
      simp at h1
      omega
    · simp [Pool.live, List.countP_append, List.countP_cons]
      simp at h2
      omega
    · exact h3
    · exact hp
    · show p.sem - 1 ≤ cap
      omega
  | finished l1 l2 t hp hl hpc hlt =>
    rw [hl] at h1 h2
    simp only [List.countP_append, List.countP_cons, hpc, holding] at h1 h2
    constructor
    · simp [Pool.running, List.countP_append, List.countP_cons, holding]
      simp at h1
      omega
    · simp [Pool.live, List.countP_append, List.countP_cons]
      simp at h2
      omega
    · intro hc
      have := (h3 hc).2
      omega
    · exact hp
    · exact h5
  | sendClosed l1 l2 t e rest hp hl hpc hc =>
    exfalso
    have := (h3 hc).2
    rw [hl] at h2
    simp [List.countP_append, List.countP_cons, hpc] at h2
    omega
  | negative l1 l2 t hp hl hpc hwg =>
    exfalso
    rw [hl] at h2
    simp [List.countP_append, List.countP_cons, hpc] at h2
    omega

theorem reach_inv (cap : Nat) (ds : Req) (channels : List Channel) (p : Pool)
    (h : Reach cap ds channels p) : Inv cap p := by
  induction h with
  | start => exact inv_start cap channels
  | next a p q _ hs ih => exact inv_move cap ds p q ih (step_move cap ds a p q hs)

theorem fuel_move (cap : Nat) (ds : Req) (p q : Pool) (hi : Inv cap p) (hm : Move cap ds p q) :
    q.fuel ds < p.fuel ds := by
  have hq := inv_move cap ds p q hi hm
  obtain ⟨h1, h2, h3, h4, h5⟩ := hi
  unfold Pool.live at h2
  cases hm with
  | spawn i ch rest hp htodo =>
    have hc : p.closed = false := by
      cases hcl : p.closed with
      | false => rfl
      | true =>
        have := (h3 hcl).1
        simp [htodo] at this
    simp [Pool.fuel, htodo, hc, pend, stage]
    omega
  | close hp htodo hwg hc =>
    simp [Pool.fuel, hc]
  | enter l1 l2 t hp hl hpc hlt =>
    simp [Pool.fuel, hl, pend, hpc, stage]
  | quiet l1 l2 t pc calls hp hl hh1 hh2 hne hpend hst =>
    simp [Pool.fuel, hl, hpend]
    omega
  | emit l1 l2 t e rest hp hl hpc hc htodo =>
    simp [Pool.fuel, hl, pend, hpc, stage]
  | release l1 l2 t hp hl hpc hlt =>
    simp [Pool.fuel, hl, pend, hpc, stage]
  | finished l1 l2 t hp hl hpc hlt =>
    simp [Pool.fuel, hl, pend, hpc, stage]
  | sendClosed l1 l2 t e rest hp hl hpc hc =>
    have := hq.no_panic
    simp at this
  | negative l1 l2 t hp hl hpc hwg =>
    have := hq.no_panic
    simp at this

theorem rem_move (cap : Nat) (ds : Req) (p q : Pool) (hi : Inv cap p) (hm : Move cap ds p q) :
    (q.rem ds = p.rem ds ∧ q.esSlice = p.esSlice) ∨
    ∃ l1 l2 e rest, p.rem ds = l1 ++ (e :: rest) :: l2 ∧ q.rem ds = l1 ++ rest :: l2 ∧
      q.esSlice = p.esSlice ++ [e] := by
  have hq := inv_move cap ds p q hi hm
  cases hm with
  | spawn i ch rest hp htodo =>
    left
    simp [Pool.rem, htodo, pend]
  | close hp htodo hwg hc =>
    left
    simp [Pool.rem]
  | enter l1 l2 t hp hl hpc hlt =>
    left
    simp [Pool.rem, hl, pend, hpc]
  | quiet l1 l2 t pc calls hp hl hh1 hh2 hne hpend hst =>
    left
    simp [Pool.rem, hl, hpend]
  | emit l1 l2 t e rest hp hl hpc hc htodo =>
    right
    exact ⟨l1.map (pend ds), l2.map (pend ds), e, rest, by simp [Pool.rem, hl, htodo, pend, hpc],
      by simp [Pool.rem, htodo, pend], rfl⟩
  | release l1 l2 t hp hl hpc hlt =>
    left
    simp [Pool.rem, hl, pend, hpc]
  | finished l1 l2 t hp hl hpc hlt =>
    left
    simp [Pool.rem, hl, pend, hpc]
  | sendClosed l1 l2 t e rest hp hl hpc hc =>
    have := hq.no_panic
    simp at this
  | negative l1 l2 t hp hl hpc hwg =>
    have := hq.no_panic
    simp at this

theorem reach_interleaving (cap : Nat) (ds : Req) (channels : List Channel) (p : Pool)
    (h : Reach cap ds channels p) :
    ∀ out, Interleaving (p.rem ds) out →
      Interleaving (channels.enum.map (entries ds)) (p.esSlice ++ out) := by
  induction h with
  | start =>
    intro out ho
    simpa [Pool.start, Pool.rem] using ho
  | next a p q hr hs ih =>
    intro out ho
    have hi := reach_inv cap ds channels p hr
    rcases rem_move cap ds p q hi (step_move cap ds a p q hs) with ⟨hrem, hes⟩ |
      ⟨l1, l2, e, rest, hp, hq, hes⟩
    · rw [hes]
      rw [hrem] at ho
      exact ih out ho
    · rw [hes, List.append_assoc]
      apply ih
      rw [hp]
      rw [hq] at ho
      exact Interleaving.pick l1 l2 e rest out ho

theorem closed_rem (cap : Nat) (ds : Req) (p : Pool) (hi : Inv cap p) (hc : p.closed = true) :
    ∀ l ∈ p.rem ds, l = [] := by
  obtain ⟨htodo, hwg⟩ := hi.closed_imp hc
  have hl := hi.wg_eq
  rw [hwg] at hl
  unfold Pool.live at hl
  have hall : ∀ t ∈ p.tasks, t.pc = .done := by
    intro t ht
    by_contra hne
    have : 0 < p.tasks.countP (fun t => decide (t.pc ≠ .done)) :=
      List.countP_pos_iff.mpr ⟨t, ht, by simpa using hne⟩
    omega
  intro l hmem
  simp only [Pool.rem, htodo, List.map_nil, List.append_nil, List.mem_map] at hmem
  obtain ⟨t, ht, rfl⟩ := hmem
  simp [pend, hall t ht]

theorem reach_closed_interleaving (cap : Nat) (ds : Req) (channels : List Channel) (p : Pool)
    (h : Reach cap ds channels p) (hc : p.closed = true) :
    Interleaving (channels.enum.map (entries ds)) p.esSlice := by
  have := reach_interleaving cap ds channels p h []
    (Interleaving.done _ (closed_rem cap ds p (reach_inv cap ds channels p h) hc))
  simpa using this

theorem interleaving_perm {α : Type} (ls : List (List α)) (out : List α)
    (h : Interleaving ls out) : out.Perm ls.flatten := by
  induction h with
  | done ls hnil =>
    have : ls.flatten = [] := by
      rw [List.flatten_eq_nil_iff]
      exact hnil
    rw [this]
  | pick l1 l2 x t out _ ih =>
    simp only [List.flatten_append, List.flatten_cons, List.cons_append] at ih ⊢
    exact (List.Perm.cons x ih).trans List.perm_middle.symm

theorem interleaving_sublist {α : Type} (ls : List (List α)) (out : List α)
    (h : Interleaving ls out) : ∀ l ∈ ls, l.Sublist out := by
  induction h with
  | done ls hnil =>
    intro l hl
    rw [hnil l hl]
  | pick l1 l2 x t out _ ih =>
    intro l hl
    simp only [List.mem_append, List.mem_cons] at hl
    rcases hl with hl | rfl | hl
    · exact (ih l (by simp [hl])).cons x
    · exact (ih t (by simp)).cons₂ x
    · exact (ih l (by simp [hl])).cons x

theorem stepTask_isSome (cap : Nat) (ds : Req) (k : Nat) (p : Pool) (t : Task)
    (ht : p.tasks[k]? = some t) (hne : t.pc ≠ .done)
    (h1 : t.pc = .spawned → p.sem < cap)
    (h2 : p.closed = false ∧ p.todo = [])
    (h3 : t.pc = .leaving → 0 < p.sem) :
    (stepTask cap ds k p).isSome = true := by
  unfold stepTask
  simp only [ht]
  cases hpc : t.pc with
  | spawned => simp [h1 hpc]
  | entered =>
    simp only
    cases ds.GetEPGBytes t.i t.ch.ChannelID <;> simp
  | fetched resp =>
    simp only
    cases ds.GetEPGs resp <;> simp
  | emitting rest =>
    cases rest with
    | nil => simp
    | cons e rest => simp [h2.1, h2.2]
  | leaving => simp [h3 hpc]
  | released =>
    simp only
    split <;> simp
  | done => exact absurd hpc hne

theorem progress (cap : Nat) (ds : Req) (p : Pool) (hi : Inv cap p) (hcap : 1 ≤ cap)
    (hc : p.closed = false) :
    ∃ a, a ∈ [Action.spawn, Action.close] ++ (List.range p.tasks.length).map Action.task ∧
      (step cap ds a p).isSome = true := by
  have hp := hi.no_panic
  cases htodo : p.todo with
  | cons ic rest =>
    exact ⟨.spawn, by simp, by simp [step, hp, htodo]⟩
  | nil =>
    by_cases hwg : p.wg = 0
    · exact ⟨.close, by simp, by simp [step, hp, htodo, hwg, hc]⟩
    · have hlive : 0 < p.tasks.countP (fun t => decide (t.pc ≠ .done)) := by
        have := hi.wg_eq
        unfold Pool.live at this
        omega
      obtain ⟨t, ht, hne⟩ := List.countP_pos_iff.mp hlive
      have hne : t.pc ≠ .done := by simpa using hne
      by_cases hrun : 0 < p.running
      · -- some goroutine is inside the semaphore
        obtain ⟨u, hu, hh⟩ := List.countP_pos_iff.mp hrun
        obtain ⟨k, hk⟩ := List.getElem?_of_mem hu
        have hklt : k < p.tasks.length := by
          by_contra hge
          rw [List.getElem?_eq_none (by omega)] at hk
          simp at hk
        refine ⟨.task k, by simp [hklt], ?_⟩
        simp only [step, hp, Bool.false_eq_true, if_false]
        apply stepTask_isSome cap ds k p u hk (holding_ne_done u.pc hh)
        · intro hs
          simp [hs, holding] at hh
        · exact ⟨hc, htodo⟩
        · intro _
          have := hi.sem_eq
          omega
      · -- every goroutine inside has left: the buffer is empty
        obtain ⟨k, hk⟩ := List.getElem?_of_mem ht
        have hklt : k < p.tasks.length := by
          by_contra hge
          rw [List.getElem?_eq_none (by omega)] at hk
          simp at hk
        have hsem : p.sem = 0 := by
          have := hi.sem_eq
          omega
        have hnh : holding t.pc = false := by
          cases hh : holding t.pc with
          | false => rfl
          | true =>
            exfalso
            apply hrun
            exact List.countP_pos_iff.mpr ⟨t, ht, hh⟩
        refine ⟨.task k, by simp [hklt], ?_⟩
        simp only [step, hp, Bool.false_eq_true, if_false]
        apply stepTask_isSome cap ds k p t hk hne
        · intro _
          omega
        · exact ⟨hc, htodo⟩
        · intro hs
          simp [hs, holding] at hnh

theorem pick_step (cap : Nat) (ds : Req) (p : Pool) (a : Action) (h : pick cap ds p = some a) :
    ∃ q, step cap ds a p = some q := by
  unfold pick at h
  have := List.find?_some h
  exact Option.isSome_iff_exists.mp this

theorem pick_none_closed (cap : Nat) (ds : Req) (p : Pool) (hi : Inv cap p) (hcap : 1 ≤ cap)
    (h : pick cap ds p = none) : p.closed = true := by
  by_contra hc
  have hc : p.closed = false := by simpa using hc
  obtain ⟨a, ha, hs⟩ := progress cap ds p hi hcap hc
  unfold pick at h
  rw [List.find?_eq_none] at h
  exact h a ha hs

theorem fuel_zero_closed (ds : Req) (p : Pool) (h : p.fuel ds = 0) : p.closed = true := by
  unfold Pool.fuel at h
  cases hc : p.closed with
  | true => rfl
  | false =>
    simp [hc] at h

theorem finish_closed (cap : Nat) (ds : Req) (hcap : 1 ≤ cap) :
    ∀ (n : Nat) (p : Pool), Inv cap p → p.fuel ds ≤ n → (finish cap ds n p).closed = true := by
  intro n
  induction n with
  | zero =>
    intro p _ hf
    simp only [finish]
    exact fuel_zero_closed ds p (by omega)
  | succ n ih =>
    intro p hi hf
    simp only [finish]
    cases hpick : pick cap ds p with
    | none => exact pick_none_closed cap ds p hi hcap hpick
    | some a =>
      obtain ⟨q, hq⟩ := pick_step cap ds p a hpick
      simp only [hq]
      have hm := step_move cap ds a p q hq
      have := fuel_move cap ds p q hi hm
      exact ih q (inv_move cap ds p q hi hm) (by omega)

theorem finish_reach (cap : Nat) (ds : Req) (channels : List Channel) :
    ∀ (n : Nat) (p : Pool), Reach cap ds channels p → Reach cap ds channels (finish cap ds n p) := by
  intro n
  induction n with
  | zero =>
    intro p h
    simpa [finish] using h
  | succ n ih =>
    intro p h
    simp only [finish]
    cases hpick : pick cap ds p with
    | none => exact h
    | some a =>
      obtain ⟨q, hq⟩ := pick_step cap ds p a hpick
      simp only [hq]
      exact ih q (Reach.next a p q h hq)

theorem exec_reach (cap : Nat) (ds : Req) (channels : List Channel) :
    ∀ (sched : List Action) (p : Pool),
      Reach cap ds channels p → Reach cap ds channels (exec cap ds sched p) := by
  intro sched
  induction sched with
  | nil =>
    intro p h
    simpa [exec] using h
  | cons a rest ih =>
    intro p h
    simp only [exec]
    cases hs : step cap ds a p with
    | none => exact ih p h
    | some q => exact ih q (Reach.next a p q h hs)

theorem runPool_reach (cap : Nat) (ds : Req) (sched : List Action) (channels : List Channel) :
    Reach cap ds channels (runPool cap ds sched channels) := by
  unfold runPool
  exact finish_reach cap ds channels _ _ (exec_reach cap ds channels sched _ Reach.start)

theorem runPool_closed (cap : Nat) (ds : Req) (sched : List Action) (channels : List Channel)
    (hcap : 1 ≤ cap) : (runPool cap ds sched channels).closed = true := by
  unfold runPool
  exact finish_closed cap ds hcap _ _
    (reach_inv cap ds channels _ (exec_reach cap ds channels sched _ Reach.start)) (le_refl _)

theorem runPool_no_panic (cap : Nat) (ds : Req) (sched : List Action) (channels : List Channel) :
    (runPool cap ds sched channels).panicked = false :=
  (reach_inv cap ds channels _ (runPool_reach cap ds sched channels)).no_panic

theorem exec_append (cap : Nat) (ds : Req) :
    ∀ (s1 s2 : List Action) (p : Pool),
      exec cap ds (s1 ++ s2) p = exec cap ds s2 (exec cap ds s1 p) := by
  intro s1
  induction s1 with
  | nil =>
    intro s2 p
    simp [exec]
  | cons a rest ih =>
    intro s2 p
    simp only [List.cons_append, exec]
    cases step cap ds a p <;> simp [ih]

theorem reach_exec (cap : Nat) (ds : Req) (channels : List Channel) (p : Pool)
    (h : Reach cap ds channels p) : ∃ sched, exec cap ds sched (Pool.start channels) = p := by
  induction h with
  | start => exact ⟨[], rfl⟩
  | next a p q _ hs ih =>
    obtain ⟨sched, hsched⟩ := ih
    exact ⟨sched ++ [a], by simp [exec_append, hsched, exec, hs]⟩

theorem closed_stuck (cap : Nat) (ds : Req) (p : Pool) (hi : Inv cap p) (hc : p.closed = true)
    (a : Action) : step cap ds a p = none := by
  cases hs : step cap ds a p with
  | none => rfl
  | some q =>
    exfalso
    have hm := step_move cap ds a p q hs
    have hf := fuel_move cap ds p q hi hm
    have hq := inv_move cap ds p q hi hm
    obtain ⟨htodo, hwg⟩ := hi.closed_imp hc
    have hl := hi.wg_eq
    rw [hwg] at hl
    unfold Pool.live at hl
    cases hm with
    | spawn i ch rest hp ht => simp [htodo] at ht
    | close hp ht hw hcl => simp [hc] at hcl
    | enter l1 l2 t hp hl1 hpc hlt =>
      rw [hl1] at hl
      simp [List.countP_append, List.countP_cons, hpc] at hl
      omega
    | quiet l1 l2 t pc calls hp hl1 hh1 hh2 hne hpend hst =>
      rw [hl1] at hl
      simp [List.countP_append, List.countP_cons, holding_ne_done t.pc hh1] at hl
      omega
    | emit l1 l2 t e rest hp hl1 hpc hcl ht => simp [hc] at hcl
    | release l1 l2 t hp hl1 hpc hlt =>
      rw [hl1] at hl
      simp [List.countP_append, List.countP_cons, hpc] at hl
      omega
    | finished l1 l2 t hp hl1 hpc hlt => omega
    | sendClosed l1 l2 t e rest hp hl1 hpc hcl =>
      have := hq.no_panic
      simp at this
    | negative l1 l2 t hp hl1 hpc hw =>
      have := hq.no_panic
      simp at this

theorem finish_closed_id (cap : Nat) (ds : Req) (p : Pool) (hi : Inv cap p)
    (hc : p.closed = true) (n : Nat) : finish cap ds n p = p := by
  cases n with
  | zero => rfl
  | succ n =>
    simp only [finish]
    cases hpick : pick cap ds p with
    | none => rfl
    | some a =>
      obtain ⟨q, hq⟩ := pick_step cap ds p a hpick
      rw [closed_stuck cap ds p hi hc a] at hq
      simp at hq

/-- Every closed pool state the scheduler can bring about is the result of
`runPool` on some schedule. -/
theorem reach_closed_runPool (cap : Nat) (ds : Req) (channels : List Channel) (p : Pool)
    (h : Reach cap ds channels p) (hc : p.closed = true) :
    ∃ sched, runPool cap ds sched channels = p := by
  obtain ⟨sched, hs⟩ := reach_exec cap ds channels p h
  refine ⟨sched, ?_⟩
  unfold runPool
  simp only [hs]
  exact finish_closed_id cap ds p (reach_inv cap ds channels p h) hc _

theorem entries_eq_guide (ds : Req) (ic : Nat × Channel) :
    entries ds ic = (guide ds ic).getD [] := by
  unfold entries guide parsed
  cases ds.GetEPGBytes ic.1 ic.2.ChannelID with
  | error e => rfl
  | ok resp =>
    simp only
    cases ds.GetEPGs resp <;> rfl

theorem flatten_entries_eq (ds : Req) (l : List (Nat × Channel)) :
    (l.map (entries ds)).flatten = (l.filterMap (guide ds)).flatten := by
  induction l with
  | nil => rfl
  | cons ic l ih =>
    simp only [List.map_cons, List.flatten_cons, List.filterMap_cons, ih, entries_eq_guide ds ic]
    cases guide ds ic <;> simp

theorem flatten_eraseIdx (ds : Req) :
    ∀ (l : List (Nat × Channel)) (j : Nat) (ic : Nat × Channel), l[j]? = some ic →
      guide ds ic = none →
      (l.map (entries ds)).flatten = ((l.eraseIdx j).map (entries ds)).flatten := by
  intro l
  induction l with
  | nil =>
    intro j ic h
    simp at h
  | cons a l ih =>
    intro j ic h hg
    cases j with
    | zero =>
      simp at h
      subst h
      simp [entries_eq_guide, hg]
    | succ j =>
      simp at h
      simp [ih j ic h hg]

theorem New_ok (addJob : String → Option Err) (cfg : Config) (c : Controller)
    (h : New addJob cfg = .ok c) :
    c.conf = cfg ∧ c.maxConcurrent =
      if cfg.MaxConcurrent = 0 ∨ cfg.MaxConcurrent > 16 then 16 else cfg.MaxConcurrent := by
  unfold New at h
  cases haj : addJob cfg.Cron with
  | some e => simp [haj] at h
  | none =>
    simp only [haj, Except.ok.injEq] at h
    subst h
    split <;> simp_all

theorem New_cap (addJob : String → Option Err) (cfg : Config) (c : Controller)
    (h : New addJob cfg = .ok c) (h0 : 0 ≤ cfg.MaxConcurrent) :
    1 ≤ c.maxConcurrent ∧ c.maxConcurrent ≤ 16 := by
  obtain ⟨_, hm⟩ := New_ok addJob cfg c h
  rw [hm]
  split
  · omega
  · rename_i hn
    push_neg at hn
    omega

theorem New_ne_zero (addJob : String → Option Err) (cfg : Config) (c : Controller)
    (h : New addJob cfg = .ok c) : c.maxConcurrent ≠ 0 := by
  obtain ⟨_, hm⟩ := New_ok addJob cfg c h
  rw [hm]
  split
  · omega
  · rename_i hn
    push_neg at hn
    exact hn.1

theorem fetchChannels_some (ds : Req) (s : State) (channels : List Channel)
    (h : directory ds s.dirCalls = some channels) :
    fetchChannels ds s =
      (none, { server := { Channels := some channels, EPGs := s.server.EPGs },
               dirCalls := s.dirCalls + 1, guideCalls := s.guideCalls }) := by
  unfold directory at h
  unfold fetchChannels
  cases h1 : ds.GetChannelBytes s.dirCalls with
  | error e => simp [h1] at h
  | ok buf =>
    simp only [h1] at h ⊢
    cases h2 : ds.BytesToChannels buf with
    | error e => simp [h2] at h
    | ok chans =>
      simp only [h2, Option.some.injEq] at h ⊢
      subst h
      rfl

theorem fetchChannels_none (ds : Req) (s : State) (h : directory ds s.dirCalls = none) :
    ∃ e, fetchChannels ds s =
      (some e, { server := s.server, dirCalls := s.dirCalls + 1, guideCalls := s.guideCalls }) := by
  unfold directory at h
  unfold fetchChannels
  cases h1 : ds.GetChannelBytes s.dirCalls with
  | error e => exact ⟨e, rfl⟩
  | ok buf =>
    simp only [h1] at h ⊢
    cases h2 : ds.BytesToChannels buf with
    | error e => exact ⟨e, rfl⟩
    | ok chans => simp [h2] at h

theorem directory_fetch_fails (ds : Req) (n : Nat) (h : ∃ e, ds.GetChannelBytes n = .error e) :
    directory ds n = none := by
  obtain ⟨e, he⟩ := h
  simp [directory, he]

theorem fetchEPGs_set (c : Controller) (ds : Req) (sched : List Action) (s : State)
    (channels : List Channel) (hch : s.server.Channels = some channels)
    (hcap : 1 ≤ c.maxConcurrent) :
    fetchEPGs c ds sched s =
      (.ret none,
       { server := { Channels := some channels,
                     EPGs := some (runPool c.maxConcurrent.toNat ds sched channels).esSlice },
         dirCalls := s.dirCalls,
         guideCalls := s.guideCalls ++ (runPool c.maxConcurrent.toNat ds sched channels).calls }) := by
  have h1 : ¬ c.maxConcurrent < 0 := by omega
  have h2 := runPool_no_panic c.maxConcurrent.toNat ds sched channels
  have h3 := runPool_closed c.maxConcurrent.toNat ds sched channels (by omega)
  unfold fetchEPGs
  simp [hch, h1, h2, h3]

theorem fetchEPGs_set_negative (c : Controller) (ds : Req) (sched : List Action) (s : State)
    (channels : List Channel) (hch : s.server.Channels = some channels)
    (hcap : c.maxConcurrent < 0) :
    fetchEPGs c ds sched s = (.panic, s) := by
  unfold fetchEPGs
  simp [hch, hcap]

theorem fetchEPGs_unset_none (c : Controller) (ds : Req) (sched : List Action) (s : State)
    (hch : s.server.Channels = none) (hd : directory ds s.dirCalls = none) :
    ∃ e, fetchEPGs c ds sched s =
      (.ret (some e),
       { server := s.server, dirCalls := s.dirCalls + 1, guideCalls := s.guideCalls }) := by
  obtain ⟨e, he⟩ := fetchChannels_none ds s hd
  refine ⟨e, ?_⟩
  unfold fetchEPGs
  simp [hch, he]

theorem fetchEPGs_unset_some (c : Controller) (ds : Req) (sched : List Action) (s : State)
    (channels : List Channel)
    (hch : s.server.Channels = none) (hd : directory ds s.dirCalls = some channels) :
    fetchEPGs c ds sched s =
      fetchEPGs c ds sched
        { server := { Channels := some channels, EPGs := s.server.EPGs },
          dirCalls := s.dirCalls + 1, guideCalls := s.guideCalls } := by
  have he := fetchChannels_some ds s channels hd
  unfold fetchEPGs
  simp [hch, he]

theorem Run_eq (c : Controller) (ds : Req) (sched : List Action) (srv : Server) :
    Run c ds sched srv =
      match fetchEPGs c ds sched (fetchChannels ds (State.start srv)).2 with
      | (.ret _, s2) => (.ret (), s2)
      | (.panic, s2) => (.panic, s2)
      | (.hang, s2) => (.hang, s2) := by
  rfl

/-- The result of the pool is a permutation of the entries of all channels. -/
theorem runPool_perm (cap : Nat) (ds : Req) (sched : List Action) (channels : List Channel)
    (hcap : 1 ≤ cap) :
    (runPool cap ds sched channels).esSlice.Perm (channels.enum.map (entries ds)).flatten :=
  interleaving_perm _ _
    (reach_closed_interleaving cap ds channels _ (runPool_reach cap ds sched channels)
      (runPool_closed cap ds sched channels hcap))

/-- One refresh cycle, when the semaphore capacity is valid: which channel
list the EPG phase uses and what the cycle leaves behind. -/
theorem Run_cases (c : Controller) (ds : Req) (sched : List Action) (srv : Server)
    (hcap : 1 ≤ c.maxConcurrent) :
    (∃ channels n,
        (directory ds 0 = some channels ∨
         (directory ds 0 = none ∧ srv.Channels = some channels) ∨
         (directory ds 0 = none ∧ srv.Channels = none ∧ directory ds 1 = some channels)) ∧
        Run c ds sched srv =
          (.ret (),
           { server := { Channels := some channels,
                         EPGs := some (runPool c.maxConcurrent.toNat ds sched channels).esSlice },
             dirCalls := n,
             guideCalls := (runPool c.maxConcurrent.toNat ds sched channels).calls })) ∨
    (directory ds 0 = none ∧ srv.Channels = none ∧ directory ds 1 = none ∧
      Run c ds sched srv = (.ret (), { server := srv, dirCalls := 2, guideCalls := [] })) := by
  rw [Run_eq]
  cases hd : directory ds 0 with
  | some channels =>
    left
    have := fetchChannels_some ds (State.start srv) channels (by simpa [State.start] using hd)
    rw [this]
    refine ⟨channels, 1, Or.inl rfl, ?_⟩
    rw [fetchEPGs_set c ds sched _ channels rfl hcap]
    simp [State.start]
  | none =>
    obtain ⟨e, he⟩ := fetchChannels_none ds (State.start srv) (by simpa [State.start] using hd)
    rw [he]
    cases hs : srv.Channels with
    | some channels =>
      left
      refine ⟨channels, 1, Or.inr (Or.inl ⟨rfl, rfl⟩), ?_⟩
      rw [fetchEPGs_set c ds sched _ channels hs hcap]
      simp [State.start]
    | none =>
      cases hd1 : directory ds 1 with
      | some channels =>
        left
        refine ⟨channels, 2, Or.inr (Or.inr ⟨rfl, rfl, rfl⟩), ?_⟩
        rw [fetchEPGs_unset_some c ds sched _ channels hs (by simpa [State.start] using hd1)]
        rw [fetchEPGs_set c ds sched _ channels rfl hcap]
        simp [State.start]
      | none =>
        right
        obtain ⟨e1, he1⟩ := fetchEPGs_unset_none c ds sched
          { server := srv, dirCalls := (State.start srv).dirCalls + 1,
            guideCalls := (State.start srv).guideCalls } hs (by simpa [State.start] using hd1)
        refine ⟨rfl, rfl, rfl, ?_⟩
        dsimp only [State.start] at he1 ⊢
        rw [he1]

theorem sameContent_refl (a : Option (List Epg)) : sameContent a a := by
  cases a with
  | none => trivial
  | some x => exact List.Perm.refl x

theorem directory_ok (ds : Req) (n : Nat) (buf : Bytes) (channels : List Channel)
    (h1 : ds.GetChannelBytes n = .ok buf) (h2 : ds.BytesToChannels buf = .ok channels) :
    directory ds n = some channels := by
  simp [directory, h1, h2]

theorem fetchEPGs_channels_set (c : Controller) (ds : Req) (sched : List Action) (s : State)
    (channels : List Channel) (hch : s.server.Channels = some channels) :
    (fetchEPGs c ds sched s).2.server.Channels = some channels := by
  unfold fetchEPGs
  simp only [hch]
  split
  · exact hch
  · split
    · exact hch
    · split
      · rfl
      · exact hch

theorem Run_abort (c : Controller) (ds : Req) (sched : List Action) (srv : Server)
    (h0 : directory ds 0 = none) (hs : srv.Channels = none) (h1 : directory ds 1 = none) :
    Run c ds sched srv = (.ret (), { server := srv, dirCalls := 2, guideCalls := [] }) := by
  rw [Run_eq]
  obtain ⟨e, he⟩ := fetchChannels_none ds (State.start srv) (by simpa [State.start] using h0)
  rw [he]
  obtain ⟨e1, he1⟩ := fetchEPGs_unset_none c ds sched
    { server := srv, dirCalls := 1, guideCalls := [] } hs (by simpa using h1)
  dsimp only [State.start] at he1 ⊢
  rw [he1]

theorem Run_negative (c : Controller) (ds : Req) (sched : List Action) (srv : Server)
    (hcap : c.maxConcurrent < 0) :
    (Run c ds sched srv).1 = .panic ∨
    (directory ds 0 = none ∧ srv.Channels = none ∧ directory ds 1 = none) := by
  rw [Run_eq]
  cases hd : directory ds 0 with
  | some channels =>
    left
    have := fetchChannels_some ds (State.start srv) channels (by simpa [State.start] using hd)
    rw [this, fetchEPGs_set_negative c ds sched _ channels rfl hcap]
  | none =>
    obtain ⟨e, he⟩ := fetchChannels_none ds (State.start srv) (by simpa [State.start] using hd)
    rw [he]
    cases hs : srv.Channels with
    | some channels =>
      left
      rw [fetchEPGs_set_negative c ds sched _ channels hs hcap]
    | none =>
      cases hd1 : directory ds 1 with
      | some channels =>
        left
        rw [fetchEPGs_unset_some c ds sched _ channels hs (by simpa [State.start] using hd1)]
        rw [fetchEPGs_set_negative c ds sched _ channels rfl hcap]
      | none =>
        right
        exact ⟨rfl, rfl, rfl⟩

/-- On a controller `New` returns from a configuration whose `MaxConcurrent`
is not negative, `Run` returns normally, whatever the data source, the
schedule and the store: no nil pointer is dereferenced, the semaphore is
created and nothing else panics or blocks for ever. -/
theorem Run_returns (addJob : String → Option Err) (cfg : Config) (c : Controller)
    (ds : Req) (sched : List Action) (srv : Server)
    (hnew : New addJob cfg = .ok c) (h0 : 0 ≤ cfg.MaxConcurrent) :
    (Run c ds sched srv).1 = .ret () := by
  have hcap := (New_cap addJob cfg c hnew h0).1
  rcases Run_cases c ds sched srv hcap with ⟨chans, n, _, hrun⟩ | ⟨_, _, _, hrun⟩ <;>
    rw [hrun]

theorem flatten_entries_nil (ds : Req) (l : List (Nat × Channel))
    (h : ∀ ic ∈ l, guide ds ic = none) : (l.map (entries ds)).flatten = [] := by
  rw [List.flatten_eq_nil_iff]
  intro x hx
  obtain ⟨ic, hic, rfl⟩ := List.mem_map.mp hx
  simp [entries_eq_guide, h ic hic]

/-! ## The claims -/

/-- C1 (counterexample): on a controller `New` returns, with every directory
fetch failing and a channel snapshot already set, `Run` returns with an EPG
snapshot different from the one before the run. -/
theorem Run_directory_failure_republishes :
    New acceptJob (demoConfig 16) = .ok { conf := demoConfig 16, maxConcurrent := 16 } ∧
    (∀ n, staleReq.GetChannelBytes n = .error 503) ∧
    Run { conf := demoConfig 16, maxConcurrent := 16 } staleReq []
        { Channels := some [{ ChannelID := 7, Info := 0 }], EPGs := none } =
      (.ret (),
       { server := { Channels := some [{ ChannelID := 7, Info := 0 }],
                     EPGs := some [{ ChannelID := 7, Program := 0 },
                                   { ChannelID := 7, Program := 1 }] },
         dirCalls := 1, guideCalls := [7] }) ∧
    (some [{ ChannelID := 7, Program := 0 }, { ChannelID := 7, Program := 1 }] :
        Option (List Epg)) ≠ none :=
  ⟨rfl, fun _ => rfl, by decide, by simp⟩

/-- C1 (amended): when every directory fetch fails, the channel snapshot
after `Run` equals the one before; if it was unset `Run` returns with both
snapshots as before; if it was set (and the stored limit lies between 1 and
16) `Run` returns having published, in place of the previous EPG snapshot, the
aggregated entries of the retained channel list, up to order. -/
theorem Run_directory_failure (c : Controller) (ds : Req) (sched : List Action) (srv : Server)
    (hfail : ∀ n, ∃ e, ds.GetChannelBytes n = .error e) :
    (Run c ds sched srv).2.server.Channels = srv.Channels ∧
    (srv.Channels = none →
      Run c ds sched srv = (.ret (), { server := srv, dirCalls := 2, guideCalls := [] })) ∧
    (∀ channels, srv.Channels = some channels → 1 ≤ c.maxConcurrent → c.maxConcurrent ≤ 16 →
      (Run c ds sched srv).1 = .ret () ∧
      ∃ es, (Run c ds sched srv).2.server.EPGs = some es ∧
        es.Perm (channels.enum.map (entries ds)).flatten) := by
  have h0 := directory_fetch_fails ds 0 (hfail 0)
  have h1 := directory_fetch_fails ds 1 (hfail 1)
  refine ⟨?_, ?_, ?_⟩
  · cases hs : srv.Channels with
    | none => rw [Run_abort c ds sched srv h0 hs h1, hs]
    | some channels =>
      obtain ⟨e, he⟩ := fetchChannels_none ds (State.start srv) (by simpa [State.start] using h0)
      have := fetchEPGs_channels_set c ds sched (fetchChannels ds (State.start srv)).2 channels
        (by rw [he]; exact hs)
      rw [Run_eq]
      split <;> simp_all
  · intro hs
    exact Run_abort c ds sched srv h0 hs h1
  · intro channels hs hcap _
    rcases Run_cases c ds sched srv hcap with ⟨chans, n, hsrc, hrun⟩ | ⟨_, hn, _, _⟩
    · have hch : chans = channels := by
        rcases hsrc with h | ⟨_, h⟩ | ⟨_, h, _⟩
        · rw [h0] at h
          simp at h
        · rw [hs] at h
          simpa using h.symm
        · rw [hs] at h
          simp at h
      subst hch
      rw [hrun]
      exact ⟨rfl, _, rfl, runPool_perm _ ds sched chans (by omega)⟩
    · rw [hs] at hn
      simp at hn

/-- Witness of C1 (amended) on the sample upstream with its directory out of
reach and the channel 7 retained from an earlier cycle. -/
theorem Run_directory_failure_witness :
    (∀ n, ∃ e, staleReq.GetChannelBytes n = .error e) ∧
    (Run { conf := demoConfig 16, maxConcurrent := 16 } staleReq []
        { Channels := some [{ ChannelID := 7, Info := 0 }], EPGs := none }).2.server.Channels
      = some [{ ChannelID := 7, Info := 0 }] ∧
    (Run { conf := demoConfig 16, maxConcurrent := 16 } staleReq []
        { Channels := some [{ ChannelID := 7, Info := 0 }], EPGs := none }).1 = .ret () ∧
    ∃ es, (Run { conf := demoConfig 16, maxConcurrent := 16 } staleReq []
        { Channels := some [{ ChannelID := 7, Info := 0 }], EPGs := none }).2.server.EPGs
        = some es ∧
      es.Perm ([({ ChannelID := 7, Info := 0 } : Channel)].enum.map (entries staleReq)).flatten :=
  ⟨fun _ => ⟨503, rfl⟩,
   (Run_directory_failure { conf := demoConfig 16, maxConcurrent := 16 } staleReq []
     { Channels := some [{ ChannelID := 7, Info := 0 }], EPGs := none }
     (fun _ => ⟨503, rfl⟩)).1,
   (Run_directory_failure { conf := demoConfig 16, maxConcurrent := 16 } staleReq []
     { Channels := some [{ ChannelID := 7, Info := 0 }], EPGs := none }
     (fun _ => ⟨503, rfl⟩)).2.2 _ rfl (by decide) (by decide)⟩

/-- C2: with the configured value -1 `New` returns a controller on which,
the directory fetch and parse succeeding with three channels, `Run` panics at
the creation of the semaphore for every schedule and every store: the channel
snapshot is published, no guide is requested and the EPG snapshot stays as it
was before the run, so no EPG snapshot is published. -/
theorem Run_negative_limit_publishes_nothing :
    ∃ c, New acceptJob (demoConfig (-1)) = .ok c ∧
      demoReq.GetChannelBytes 0 = .ok [1, 2, 3] ∧
      demoReq.BytesToChannels [1, 2, 3] = .ok [⟨1, 0⟩, ⟨2, 0⟩, ⟨3, 0⟩] ∧
      ∀ (sched : List Action) (srv : Server),
        Run c demoReq sched srv =
          (.panic, { server := { Channels := some [⟨1, 0⟩, ⟨2, 0⟩, ⟨3, 0⟩], EPGs := srv.EPGs },
                     dirCalls := 1, guideCalls := [] }) := by
  refine ⟨{ conf := demoConfig (-1), maxConcurrent := -1 }, rfl, rfl, rfl, ?_⟩
  intro sched srv
  rw [Run_eq, fetchChannels_some demoReq (State.start srv) [⟨1, 0⟩, ⟨2, 0⟩, ⟨3, 0⟩] rfl,
    fetchEPGs_set_negative _ demoReq sched _ [⟨1, 0⟩, ⟨2, 0⟩, ⟨3, 0⟩] rfl (by decide)]
  rfl

/-- The EPG snapshot of a cycle whose directory succeeds, on a controller
`New` returns from a configuration whose `MaxConcurrent` is not negative:
`Run` returns and publishes, for every schedule, an EPG snapshot that is up to
order the concatenation of the parsed entries of exactly the channels whose
fetch and parse both succeeded, each once; and if the goroutine at index `j`
failed, the snapshot is up to order the concatenation over the other indices. -/
theorem Run_publishes_successful_channels (addJob : String → Option Err) (cfg : Config)
    (c : Controller) (ds : Req) (sched : List Action) (srv : Server) (buf : Bytes)
    (channels : List Channel)
    (hnew : New addJob cfg = .ok c) (h0 : 0 ≤ cfg.MaxConcurrent)
    (hfetch : ds.GetChannelBytes 0 = .ok buf) (hparse : ds.BytesToChannels buf = .ok channels) :
    ∃ es, (Run c ds sched srv).1 = .ret () ∧
      (Run c ds sched srv).2.server.Channels = some channels ∧
      (Run c ds sched srv).2.server.EPGs = some es ∧
      es.Perm (channels.enum.filterMap (guide ds)).flatten ∧
      ∀ j ic, channels.enum[j]? = some ic → guide ds ic = none →
        es.Perm ((channels.enum.eraseIdx j).filterMap (guide ds)).flatten := by
  have hcap := (New_cap addJob cfg c hnew h0).1
  have hd := directory_ok ds 0 buf channels hfetch hparse
  have hperm := runPool_perm c.maxConcurrent.toNat ds sched channels (by omega)
  rcases Run_cases c ds sched srv hcap with ⟨chans, n, hsrc, hrun⟩ | ⟨hn, _⟩
  · have hch : chans = channels := by
      rcases hsrc with h | ⟨h, _⟩ | ⟨h, _⟩
      · rw [hd] at h
        simpa using h.symm
      · rw [hd] at h
        simp at h
      · rw [hd] at h
        simp at h
    subst hch
    rw [hrun]
    refine ⟨_, rfl, rfl, rfl, ?_, ?_⟩
    · rw [← flatten_entries_eq]
      exact hperm
    · intro j ic hj hg
      rw [← flatten_entries_eq, ← flatten_eraseIdx ds _ j ic hj hg]
      exact hperm
  · rw [hd] at hn
    simp at hn

/-- The sample upstream under a limit of 2: three channels, the guide of the
second one failing, the four entries of the other two published. -/
theorem Run_publishes_successful_channels_witness :
    New acceptJob (demoConfig 2) = .ok { conf := demoConfig 2, maxConcurrent := 2 } ∧
    demoReq.GetChannelBytes 0 = .ok [1, 2, 3] ∧
    demoReq.BytesToChannels [1, 2, 3] = .ok [⟨1, 0⟩, ⟨2, 0⟩, ⟨3, 0⟩] ∧
    ∃ es, (Run { conf := demoConfig 2, maxConcurrent := 2 } demoReq
            [.spawn, .spawn, .spawn, .task 2, .task 0] { Channels := none, EPGs := none }).1
          = .ret () ∧
      (Run { conf := demoConfig 2, maxConcurrent := 2 } demoReq
            [.spawn, .spawn, .spawn, .task 2, .task 0]
            { Channels := none, EPGs := none }).2.server.EPGs = some es ∧
      es.Perm [⟨1, 0⟩, ⟨1, 1⟩, ⟨3, 0⟩, ⟨3, 1⟩] :=
  ⟨rfl, rfl, rfl, by
    obtain ⟨es, h1, _, h2, h3, _⟩ := Run_publishes_successful_channels acceptJob (demoConfig 2)
      { conf := demoConfig 2, maxConcurrent := 2 } demoReq
      [.spawn, .spawn, .spawn, .task 2, .task 0] { Channels := none, EPGs := none }
      [1, 2, 3] [⟨1, 0⟩, ⟨2, 0⟩, ⟨3, 0⟩] rfl (by decide) rfl rfl
    exact ⟨es, h1, h2, h3⟩⟩

/-- C3: at the configured value -1 `New` returns a controller whose stored
limit is -1, outside the range from 1 to 16. -/
theorem New_negative_limit :
    ∃ c, New acceptJob (demoConfig (-1)) = .ok c ∧ c.maxConcurrent = -1 ∧
      ¬ (1 ≤ c.maxConcurrent ∧ c.maxConcurrent ≤ 16) :=
  ⟨{ conf := demoConfig (-1), maxConcurrent := -1 }, rfl, rfl, by decide⟩

/-- C4: with the configured value -1 `New` returns a controller on which
`Run` panics at the creation of the semaphore, for every data source, every
schedule and every store whose channel snapshot is set. -/
theorem Run_negative_limit_panics :
    ∃ c, New acceptJob (demoConfig (-1)) = .ok c ∧
      ∀ (ds : Req) (sched : List Action) (channels : List Channel) (epgs : Option (List Epg)),
        (Run c ds sched { Channels := some channels, EPGs := epgs }).1 = .panic := by
  refine ⟨{ conf := demoConfig (-1), maxConcurrent := -1 }, rfl, ?_⟩
  intro ds sched channels epgs
  rcases Run_negative { conf := demoConfig (-1), maxConcurrent := -1 } ds sched
    { Channels := some channels, EPGs := epgs } (by decide) with h | ⟨_, h, _⟩
  · exact h
  · simp at h

/-- C5: from the state in which both snapshots are unset, when every
directory fetch fails `Run` returns after two directory requests, issues no
guide request and leaves both snapshots unset. -/
theorem Run_unset_directory_failure (c : Controller) (ds : Req) (sched : List Action)
    (hfail : ∀ n, ∃ e, ds.GetChannelBytes n = .error e) :
    Run c ds sched { Channels := none, EPGs := none } =
      (.ret (), { server := { Channels := none, EPGs := none }, dirCalls := 2,
                  guideCalls := [] }) :=
  Run_abort c ds sched _ (directory_fetch_fails ds 0 (hfail 0)) rfl
    (directory_fetch_fails ds 1 (hfail 1))

/-- Witness of C5 on the sample upstream with its directory out of reach. -/
theorem Run_unset_directory_failure_witness :
    (∀ n, ∃ e, staleReq.GetChannelBytes n = .error e) ∧
    Run { conf := demoConfig 4, maxConcurrent := 4 } staleReq [.spawn, .task 0]
        { Channels := none, EPGs := none } =
      (.ret (), { server := { Channels := none, EPGs := none }, dirCalls := 2,
                  guideCalls := [] }) :=
  ⟨fun _ => ⟨503, rfl⟩,
   Run_unset_directory_failure { conf := demoConfig 4, maxConcurrent := 4 } staleReq
     [.spawn, .task 0] (fun _ => ⟨503, rfl⟩)⟩

/-- C6: on a controller `New` returns whose semaphore can be created, when a
channel snapshot is available (already set, or set by the fallback directory
fetch) `fetchEPGs` returns no error and leaves the EPG snapshot set to the
aggregated entries; if every goroutine fails, or the channel list is empty,
the snapshot is the set, empty sequence, which differs from the unset state. -/
theorem fetchEPGs_publishes (addJob : String → Option Err) (cfg : Config) (c : Controller)
    (ds : Req) (sched : List Action) (s : State) (channels : List Channel)
    (hnew : New addJob cfg = .ok c) (h0 : 0 ≤ cfg.MaxConcurrent)
    (havail : s.server.Channels = some channels ∨
      (s.server.Channels = none ∧ directory ds s.dirCalls = some channels)) :
    ∃ es, (fetchEPGs c ds sched s).1 = .ret none ∧
      (fetchEPGs c ds sched s).2.server.EPGs = some es ∧
      (fetchEPGs c ds sched s).2.server.EPGs ≠ none ∧
      es.Perm (channels.enum.map (entries ds)).flatten ∧
      ((∀ ic ∈ channels.enum, guide ds ic = none) → es = []) ∧
      (channels = [] → es = []) := by
  have hcap := (New_cap addJob cfg c hnew h0).1
  have hperm := runPool_perm c.maxConcurrent.toNat ds sched channels (by omega)
  refine ⟨(runPool c.maxConcurrent.toNat ds sched channels).esSlice, ?_⟩
  have key : (fetchEPGs c ds sched s).1 = .ret none ∧
      (fetchEPGs c ds sched s).2.server.EPGs =
        some (runPool c.maxConcurrent.toNat ds sched channels).esSlice := by
    rcases havail with hch | ⟨hch, hd⟩
    · rw [fetchEPGs_set c ds sched s channels hch hcap]
      exact ⟨rfl, rfl⟩
    · rw [fetchEPGs_unset_some c ds sched s channels hch hd,
        fetchEPGs_set c ds sched _ channels rfl hcap]
      exact ⟨rfl, rfl⟩
  refine ⟨key.1, key.2, by rw [key.2]; simp, hperm, ?_, ?_⟩
  · intro hall
    rw [flatten_entries_nil ds _ hall] at hperm
    exact List.Perm.eq_nil hperm
  · intro hnil
    subst hnil
    exact List.Perm.eq_nil (by simpa using hperm)

/-- Witness of C6 on the sample upstream, the three sample channels set. -/
theorem fetchEPGs_publishes_witness :
    New acceptJob (demoConfig 2) = .ok { conf := demoConfig 2, maxConcurrent := 2 } ∧
    ∃ es, (fetchEPGs { conf := demoConfig 2, maxConcurrent := 2 } demoReq [.spawn, .task 0]
        (State.start { Channels := some [⟨1, 0⟩, ⟨2, 0⟩, ⟨3, 0⟩], EPGs := none })).1 = .ret none ∧
      (fetchEPGs { conf := demoConfig 2, maxConcurrent := 2 } demoReq [.spawn, .task 0]
        (State.start { Channels := some [⟨1, 0⟩, ⟨2, 0⟩, ⟨3, 0⟩], EPGs := none })).2.server.EPGs
        = some es :=
  ⟨rfl, by
    obtain ⟨es, h1, h2, _⟩ := fetchEPGs_publishes acceptJob (demoConfig 2)
      { conf := demoConfig 2, maxConcurrent := 2 } demoReq [.spawn, .task 0]
      (State.start { Channels := some [⟨1, 0⟩, ⟨2, 0⟩, ⟨3, 0⟩], EPGs := none })
      [⟨1, 0⟩, ⟨2, 0⟩, ⟨3, 0⟩] rfl (by decide) (Or.inl rfl)
    exact ⟨es, h1, h2⟩⟩

/-- C7: on a controller `New` returns, with the same data source and parsers
answering both cycles, `Run` returns whenever the semaphore can be created,
and whenever a first `Run` returns a second `Run` on the store it left returns
too, with the same channel snapshot and an EPG snapshot of identical content
up to order, whatever the two schedules. -/
theorem Run_twice_same_content (addJob : String → Option Err) (cfg : Config) (c : Controller)
    (ds : Req) (sched1 sched2 : List Action) (srv : Server)
    (hnew : New addJob cfg = .ok c) :
    (0 ≤ cfg.MaxConcurrent → (Run c ds sched1 srv).1 = .ret ()) ∧
    ((Run c ds sched1 srv).1 = .ret () →
      (Run c ds sched2 (Run c ds sched1 srv).2.server).1 = .ret () ∧
      (Run c ds sched2 (Run c ds sched1 srv).2.server).2.server.Channels
        = (Run c ds sched1 srv).2.server.Channels ∧
      sameContent (Run c ds sched1 srv).2.server.EPGs
        (Run c ds sched2 (Run c ds sched1 srv).2.server).2.server.EPGs) := by
  constructor
  · intro h0
    have hcap := (New_cap addJob cfg c hnew h0).1
    rcases Run_cases c ds sched1 srv hcap with ⟨chans, n, _, hrun⟩ | ⟨_, _, _, hrun⟩ <;>
      rw [hrun]
  · intro hret
    by_cases hneg : c.maxConcurrent < 0
    · rcases Run_negative c ds sched1 srv hneg with hp | ⟨h0, hs, h1⟩
      · rw [hp] at hret
        cases hret
      · rw [Run_abort c ds sched1 srv h0 hs h1, Run_abort c ds sched2 srv h0 hs h1]
        exact ⟨rfl, rfl, sameContent_refl _⟩
    · have hcap : 1 ≤ c.maxConcurrent := by
        have := New_ne_zero addJob cfg c hnew
        omega
      rcases Run_cases c ds sched1 srv hcap with ⟨chans, n, hsrc, hrun⟩ | ⟨h0, hs, h1, hrun⟩
      · rw [hrun]
        rcases Run_cases c ds sched2
          { Channels := some chans,
            EPGs := some (runPool c.maxConcurrent.toNat ds sched1 chans).esSlice } hcap with
          ⟨chans2, n2, hsrc2, hrun2⟩ | ⟨_, hs2, _⟩
        · have hch : chans2 = chans := by
            rcases hsrc2 with h | ⟨_, h⟩ | ⟨_, h, _⟩
            · rcases hsrc with h' | ⟨h', _⟩ | ⟨h', _⟩
              · rw [h] at h'
                simpa using h'
              · rw [h] at h'
                simp at h'
              · rw [h] at h'
                simp at h'
            · simpa using h.symm
            · simp at h
          subst hch
          rw [hrun2]
          refine ⟨rfl, rfl, ?_⟩
          exact (runPool_perm _ ds sched1 chans2 (by omega)).trans
            (runPool_perm _ ds sched2 chans2 (by omega)).symm
        · simp at hs2
      · rw [hrun, Run_abort c ds sched2 srv h0 hs h1]
        exact ⟨rfl, rfl, sameContent_refl _⟩

/-- Witness of C7 on the sample upstream under two different schedules. -/
theorem Run_twice_same_content_witness :
    New acceptJob (demoConfig 2) = .ok { conf := demoConfig 2, maxConcurrent := 2 } ∧
    (Run { conf := demoConfig 2, maxConcurrent := 2 } demoReq [.spawn] ⟨none, none⟩).1
      = .ret () ∧
    sameContent
      (Run { conf := demoConfig 2, maxConcurrent := 2 } demoReq [.spawn] ⟨none, none⟩).2.server.EPGs
      (Run { conf := demoConfig 2, maxConcurrent := 2 } demoReq
        [.spawn, .spawn, .spawn, .task 2, .task 2, .task 2, .task 2]
        (Run { conf := demoConfig 2, maxConcurrent := 2 } demoReq [.spawn]
          ⟨none, none⟩).2.server).2.server.EPGs :=
  ⟨rfl, by decide,
   ((Run_twice_same_content acceptJob (demoConfig 2) { conf := demoConfig 2, maxConcurrent := 2 }
      demoReq [.spawn] [.spawn, .spawn, .spawn, .task 2, .task 2, .task 2, .task 2]
      ⟨none, none⟩ rfl).2 (by decide)).2.2⟩

/-- C8: for every configured limit `L`, every channel list and every pool
state the scheduler can bring about, the number of goroutines that have
entered the semaphore and not yet left it never exceeds the concurrency
ceiling of the specification for `L` (the clamp to the range from 1 to 16
under which a configured 0 resolves to 16); for `L ≠ 0` that is the
arithmetic `clamp L 1 16`. The number never exceeds the capacity of the
semaphore either, which for `L ≥ 0` is that ceiling. -/
theorem running_le_limit (addJob : String → Option Err) (cfg : Config) (c : Controller)
    (ds : Req) (channels : List Channel) (p : Pool)
    (hnew : New addJob cfg = .ok c)
    (hr : Reach c.maxConcurrent.toNat ds channels p) :
    (p.running : Int) ≤ concurrencyLimit cfg.MaxConcurrent ∧
    (cfg.MaxConcurrent ≠ 0 → (p.running : Int) ≤ clamp cfg.MaxConcurrent 1 16) ∧
    p.running ≤ c.maxConcurrent.toNat ∧
    (0 ≤ cfg.MaxConcurrent → c.maxConcurrent = concurrencyLimit cfg.MaxConcurrent) := by
  have hi := reach_inv _ ds channels p hr
  have h1 := hi.sem_eq
  have h2 := hi.sem_le
  have hm := (New_ok addJob cfg c hnew).2
  unfold concurrencyLimit clamp
  refine ⟨?_, ?_, by omega, ?_⟩
  · split_ifs at hm ⊢ <;> omega
  · intro hne
    split_ifs at hm ⊢ <;> omega
  · intro h0
    split_ifs at hm ⊢ <;> omega

/-- Witness of C8 at the configured limits 0 (two goroutines inside a
semaphore of capacity 16) and 1 (the second goroutine kept out). -/
theorem running_le_limit_witness :
    New acceptJob (demoConfig 0) = .ok { conf := demoConfig 0, maxConcurrent := 16 } ∧
    (exec (Int.toNat 16) demoReq [.spawn, .spawn, .task 0, .task 1]
        (Pool.start [⟨1, 0⟩, ⟨3, 0⟩])).running = 2 ∧
    (((exec (Int.toNat 16) demoReq [.spawn, .spawn, .task 0, .task 1]
        (Pool.start [⟨1, 0⟩, ⟨3, 0⟩])).running : Nat) : Int)
      ≤ concurrencyLimit (demoConfig 0).MaxConcurrent ∧
    New acceptJob (demoConfig 1) = .ok { conf := demoConfig 1, maxConcurrent := 1 } ∧
    (((exec (Int.toNat 1) demoReq [.spawn, .spawn, .task 0, .task 1]
        (Pool.start [⟨1, 0⟩, ⟨3, 0⟩])).running : Nat) : Int)
      ≤ clamp (demoConfig 1).MaxConcurrent 1 16 :=
  ⟨rfl, by decide,
   (running_le_limit acceptJob (demoConfig 0) { conf := demoConfig 0, maxConcurrent := 16 }
     demoReq [⟨1, 0⟩, ⟨3, 0⟩] _ rfl (exec_reach _ _ _ _ _ Reach.start)).1,
   rfl,
   (running_le_limit acceptJob (demoConfig 1) { conf := demoConfig 1, maxConcurrent := 1 }
     demoReq [⟨1, 0⟩, ⟨3, 0⟩] _ rfl (exec_reach _ _ _ _ _ Reach.start)).2.1 (by decide)⟩

/-- C9: whenever the cadence expression is accepted `New` returns a
controller, and in every controller `New` returns a configured
`MaxConcurrent` of 0 or above 16 is stored as exactly 16 while a configured
value from 1 to 16 is stored unchanged. -/
theorem New_resolves_limit (addJob : String → Option Err) (cfg : Config) :
    (addJob cfg.Cron = none → ∃ c, New addJob cfg = .ok c) ∧
    ∀ c, New addJob cfg = .ok c →
      ((cfg.MaxConcurrent = 0 ∨ 16 < cfg.MaxConcurrent) → c.maxConcurrent = 16) ∧
      ((1 ≤ cfg.MaxConcurrent ∧ cfg.MaxConcurrent ≤ 16) → c.maxConcurrent = cfg.MaxConcurrent) := by
  constructor
  · intro h
    simp [New, h]
  · intro c h
    obtain ⟨_, hm⟩ := New_ok addJob cfg c h
    constructor
    · intro hc
      rw [hm, if_pos (by simpa using hc)]
    · intro hc
      rw [hm, if_neg (by omega)]

/-- Witness of C9 at the configured values 0, 40 and 5. -/
theorem New_resolves_limit_witness :
    (∃ c, New acceptJob (demoConfig 0) = .ok c ∧ c.maxConcurrent = 16) ∧
    (∃ c, New acceptJob (demoConfig 40) = .ok c ∧ c.maxConcurrent = 16) ∧
    (∃ c, New acceptJob (demoConfig 5) = .ok c ∧ c.maxConcurrent = 5) := by
  refine ⟨?_, ?_, ?_⟩
  · obtain ⟨c, hc⟩ := (New_resolves_limit acceptJob (demoConfig 0)).1 rfl
    exact ⟨c, hc, ((New_resolves_limit acceptJob (demoConfig 0)).2 c hc).1 (Or.inl rfl)⟩
  · obtain ⟨c, hc⟩ := (New_resolves_limit acceptJob (demoConfig 40)).1 rfl
    exact ⟨c, hc, ((New_resolves_limit acceptJob (demoConfig 40)).2 c hc).1
      (Or.inr (by decide))⟩
  · obtain ⟨c, hc⟩ := (New_resolves_limit acceptJob (demoConfig 5)).1 rfl
    exact ⟨c, hc, ((New_resolves_limit acceptJob (demoConfig 5)).2 c hc).2
      (by decide)⟩

/-- C10: on a controller `New` returns whose semaphore can be created, with
the channel snapshot set to `channels`, the sequence `fetchEPGs` publishes is,
for every schedule, an interleaving of the entry sequences of the goroutines
(that of a failed goroutine being empty): the entries of the parse of one
channel occur in it in the order in which the parse returned them. The same holds of the
aggregated slice of every closed pool state the scheduler can bring about. -/
theorem fetchEPGs_keeps_channel_order (addJob : String → Option Err) (cfg : Config)
    (c : Controller) (ds : Req) (sched : List Action) (s : State) (channels : List Channel)
    (hnew : New addJob cfg = .ok c) (h0 : 0 ≤ cfg.MaxConcurrent)
    (hch : s.server.Channels = some channels) :
    (∃ es, (fetchEPGs c ds sched s).1 = .ret none ∧
      (fetchEPGs c ds sched s).2.server.EPGs = some es ∧
      Interleaving (channels.enum.map (entries ds)) es ∧
      ∀ ic ∈ channels.enum, ∀ epgs, guide ds ic = some epgs → epgs.Sublist es) ∧
    ∀ p, Reach c.maxConcurrent.toNat ds channels p → p.closed = true →
      Interleaving (channels.enum.map (entries ds)) p.esSlice := by
  have hcap := (New_cap addJob cfg c hnew h0).1
  constructor
  · have hint := reach_closed_interleaving c.maxConcurrent.toNat ds channels _
      (runPool_reach c.maxConcurrent.toNat ds sched channels)
      (runPool_closed c.maxConcurrent.toNat ds sched channels (by omega))
    refine ⟨(runPool c.maxConcurrent.toNat ds sched channels).esSlice, ?_, ?_, hint, ?_⟩
    · rw [fetchEPGs_set c ds sched s channels hch hcap]
    · rw [fetchEPGs_set c ds sched s channels hch hcap]
    · intro ic hic epgs hg
      have := interleaving_sublist _ _ hint (entries ds ic) (List.mem_map_of_mem _ hic)
      simpa [entries_eq_guide, hg] using this
  · intro p hr hc
    exact reach_closed_interleaving c.maxConcurrent.toNat ds channels p hr hc

/-- Witness of C10 on the sample upstream, the three sample channels set. -/
theorem fetchEPGs_keeps_channel_order_witness :
    New acceptJob (demoConfig 2) = .ok { conf := demoConfig 2, maxConcurrent := 2 } ∧
    ∃ es, (fetchEPGs { conf := demoConfig 2, maxConcurrent := 2 } demoReq
        [.spawn, .spawn, .spawn, .task 2, .task 2, .task 2, .task 0]
        (State.start { Channels := some [⟨1, 0⟩, ⟨2, 0⟩, ⟨3, 0⟩], EPGs := none })).2.server.EPGs
        = some es ∧
      List.Sublist [(⟨3, 0⟩ : Epg), ⟨3, 1⟩] es :=
  ⟨rfl, by
    obtain ⟨⟨es, _, h2, _, h4⟩, _⟩ := fetchEPGs_keeps_channel_order acceptJob (demoConfig 2)
      { conf := demoConfig 2, maxConcurrent := 2 } demoReq
      [.spawn, .spawn, .spawn, .task 2, .task 2, .task 2, .task 0]
      (State.start { Channels := some [⟨1, 0⟩, ⟨2, 0⟩, ⟨3, 0⟩], EPGs := none })
      [⟨1, 0⟩, ⟨2, 0⟩, ⟨3, 0⟩] rfl (by decide) rfl
    exact ⟨es, h2, h4 (2, ⟨3, 0⟩) (by decide) _ rfl⟩⟩

end controller
